import Mathlib

/-!
Verification of the vafast-api-client core: the middleware composition
engine (src/core/compose.ts), the request execution pipeline
(src/core/client.ts), and the SSE streaming subsystem (src/core/eden.ts).
The TypeScript source is shallowly embedded: mutable state becomes explicit
state passing, promises/exceptions become Except, external collaborators
(JSON.parse, the network) become parameters or explicit input data.
-/

namespace VafastClient

/-! # Middleware composition (src/core/compose.ts)

The composed dispatcher keeps a shared mutable cursor `index` initialised
to -1.  `dispatch(i)` rejects with the invariant-violation message when
`i <= index`, otherwise sets `index := i` and runs `middlewares[i]`
(or the terminal handler when `i` is out of bounds), passing the closure
`() => dispatch(i+1)` as `next`.

A middleware is relevant to the dispatcher only through how it uses
`next`; we embed that behaviour as a small syntax: it may short-circuit
(never call `next`), call `next` once and return its result, or call the
captured `next` twice in the same frame. The shared cursor is threaded
explicitly: `dispatch` takes the current cursor value and returns the
cursor value after the call, exactly mirroring the closure over `index`. -/

/-- Behaviour of one middleware with respect to its `next` continuation. -/
inductive MwProg where
  | short
  | callOnce
  | callTwice
  deriving DecidableEq, Repr

/-- The error message of the invariant violation in `compose.ts`. -/
def invariantMsg : String := "next() called multiple times"

/-- Shallow embedding of `dispatch` from `compose.ts`.  The result is the
response marker together with the final value of the shared cursor
`index`; rejection of the promise is the `Except.error` case. -/
def dispatch (mws : List MwProg) (i : Nat) (index : Int) :
    Except String (Nat × Int) :=
  if (i : Int) ≤ index then
    Except.error invariantMsg
  else
    if h : i < mws.length then
      match mws.get ⟨i, h⟩ with
      | MwProg.short => Except.ok (100 + i, (i : Int))
      | MwProg.callOnce => dispatch mws (i + 1) (i : Int)
      | MwProg.callTwice =>
        match dispatch mws (i + 1) (i : Int) with
        | Except.error e => Except.error e
        | Except.ok (_, idx2) => dispatch mws (i + 1) idx2
    else
      Except.ok (0, (i : Int))
termination_by mws.length + 1 - i
decreasing_by
  all_goals omega

/-- A middleware list is well behaved when no middleware invokes its
captured `next` twice. -/
def wellBehaved (mws : List MwProg) : Prop :=
  ∀ m ∈ mws, m ≠ MwProg.callTwice

instance (mws : List MwProg) : Decidable (wellBehaved mws) := by
  unfold wellBehaved
  infer_instance

/-! # Request execution pipeline (src/core/client.ts)

The `finalHandler` inside `ClientImpl.request` performs the network call
and normalises the reply.  The network and the body decode are external:
we embed their combined outcome as input data.  `response.ok` is the
Fetch-standard predicate `200 <= status < 300`; `response.json()` yields
a JSON value (embedded as `JVal`), `response.text()` a string, and any
other content type leaves `data` at `null`.  A thrown `AbortError` is
classified by inspecting whether the caller-supplied signal had fired. -/

/-- Minimal JSON values, the image of the runtime `JSON.parse`. -/
inductive JVal where
  | jnull
  | jbool (b : Bool)
  | jnum (n : Int)
  | jstr (s : String)
  | jarr (xs : List JVal)
  | jobj (fields : List (String × JVal))

/-- Error taxonomy from `types` (`ErrorType`). -/
inductive ErrorType where
  | network
  | timeout
  | abort
  | server
  | unknown
  deriving DecidableEq, Repr

/-- `ApiError` as produced by `createErrorResponse`: the code and message
are whatever JavaScript values flow in (the payload is not re-checked at
runtime), plus the coarse error type. -/
structure ApiErr where
  code : JVal
  message : JVal
  etype : ErrorType

/-- The observable part of a `ResponseContext` produced by the final
handler: decoded data, structured error, numeric status, and whether a
raw network response handle is attached. -/
structure RespCtx where
  data : Option JVal
  error : Option ApiErr
  status : Nat
  hasRaw : Bool

/-- `createSuccessResponse` from client.ts. -/
def createSuccessResponse (data : Option JVal) (status : Nat) : RespCtx :=
  { data := data, error := none, status := status, hasRaw := true }

/-- `createErrorResponse` from client.ts; `rawStatus` is `some s` when a
raw response with status `s` is attached, `none` when `raw` is null. -/
def createErrorResponse (code message : JVal) (etype : ErrorType)
    (rawStatus : Option Nat) : RespCtx :=
  { data := none, error := some { code := code, message := message, etype := etype },
    status := rawStatus.getD 0, hasRaw := rawStatus.isSome }

/-- How the reply body was decoded, decided by the `content-type` header:
`application/json` parses as JSON, `text/*` is taken verbatim, anything
else is not decoded at all. -/
inductive BodyKind where
  | jsonBody (v : JVal)
  | textBody (s : String)
  | noBody

/-- Outcome of `doFetch` plus body decoding, as seen by `finalHandler`:
a resolved reply, a thrown `AbortError`, or any other thrown error. -/
inductive FetchResult where
  | reply (status : Nat) (body : BodyKind)
  | abortError
  | otherError (msg : String)

/-- The value of the `data` local after the content-type dispatch.  A
JSON body `null` leaves the JavaScript variable at `null`, which is
indistinguishable from the undecoded case. -/
def isNullJ : JVal → Bool
  | JVal.jnull => true
  | _ => false

def decodeBody : BodyKind → Option JVal
  | BodyKind.jsonBody v => if isNullJ v then none else some v
  | BodyKind.textBody s => some (JVal.jstr s)
  | BodyKind.noBody => none

/-- Property access `data?.k` on the decoded payload: defined only when
the payload is an object carrying the key. -/
def jsField (data : Option JVal) (k : String) : Option JVal :=
  match data with
  | some (JVal.jobj fields) => (fields.find? (fun p => p.1 = k)).map (fun p => p.2)
  | _ => none

/-- `errorData?.code ?? response.status`: the payload field wins unless
it is absent or null. -/
def errCode (data : Option JVal) (status : Nat) : JVal :=
  match jsField data "code" with
  | some v => if isNullJ v then JVal.jnum status else v
  | none => JVal.jnum status

/-- `errorData?.message ?? `HTTP n``. -/
def errMessage (data : Option JVal) (status : Nat) : JVal :=
  match jsField data "message" with
  | some v => if isNullJ v then JVal.jstr ("HTTP " ++ toString status) else v
  | none => JVal.jstr ("HTTP " ++ toString status)

/-- Fetch-standard `Response.ok`: status in the 2xx range. -/
def responseOk (status : Nat) : Bool :=
  decide (200 ≤ status) && decide (status < 300)

/-- Shallow embedding of the `finalHandler` of `ClientImpl.request`
(client.ts).  `userAborted` is the value of `config?.signal?.aborted`
observed in the catch block. -/
def finalHandler (userAborted : Bool) : FetchResult → RespCtx
  | FetchResult.reply status body =>
    let data := decodeBody body
    if responseOk status then
      createSuccessResponse data status
    else
      createErrorResponse (errCode data status) (errMessage data status)
        ErrorType.server (some status)
  | FetchResult.abortError =>
    if userAborted then
      createErrorResponse (JVal.jnum 0) (JVal.jstr "请求已取消") ErrorType.abort none
    else
      createErrorResponse (JVal.jnum 408) (JVal.jstr "请求超时") ErrorType.timeout none
  | FetchResult.otherError msg =>
    createErrorResponse (JVal.jnum 0)
      (JVal.jstr (if msg = "" then "网络错误" else msg)) ErrorType.network none


/-! # SSE frame parsing (src/core/eden.ts, `parseSSEStream`)

The generator reads byte chunks, decodes them incrementally
(`TextDecoder` with `stream: true` keeps an incomplete trailing UTF-8
sequence for the next read), appends the text to a buffer, splits the
buffer on the blank line `"\n\n"` keeping the unterminated tail, and
parses each completed non-blank frame into an `SSEEvent`.  The payload
decode `JSON.parse` is external and is passed in as a function
`dec : List Char → Option α`; a failed decode keeps the raw text.

Strings are modelled as lists of characters, bytes as natural numbers. -/

/-- Number of bytes of the UTF-8 sequence introduced by leading byte
`b` (a stray continuation byte consumes one byte on its own). -/
def needed (b : Nat) : Nat :=
  if b < 0xC0 then 1 else if b < 0xE0 then 2 else if b < 0xF0 then 3 else 4

/-- The U+FFFD replacement character emitted for malformed input. -/
def replChar : Char := Char.ofNat 0xFFFD

/-- Assemble one code point from a complete UTF-8 sequence. -/
def decodeChar : List Nat → Char
  | [b] => if b < 0x80 then Char.ofNat b else replChar
  | [b1, b2] => Char.ofNat ((b1 % 0x20) * 0x40 + b2 % 0x40)
  | [b1, b2, b3] => Char.ofNat (((b1 % 0x10) * 0x40 + b2 % 0x40) * 0x40 + b3 % 0x40)
  | [b1, b2, b3, b4] =>
    Char.ofNat ((((b1 % 0x8) * 0x40 + b2 % 0x40) * 0x40 + b3 % 0x40) * 0x40 + b4 % 0x40)
  | _ => replChar

/-- Streaming UTF-8 decode: emit every complete sequence, return the
incomplete trailing bytes (the `TextDecoder` internal state). -/
def decodeLoop : List Nat → List Char × List Nat
  | [] => ([], [])
  | b :: bs =>
    if bs.length + 1 < needed b then ([], b :: bs)
    else
      let rest := decodeLoop (List.drop (needed b - 1) bs)
      (decodeChar (List.take (needed b) (b :: bs)) :: rest.1, rest.2)
termination_by l => l.length
decreasing_by
  simp only [List.length_drop, List.length_cons]
  omega

/-- `buffer.split('\n\n')` with the last (possibly unterminated)
fragment separated out, mirroring `events.pop()`. -/
def splitNN : List Char → List (List Char) × List Char
  | [] => ([], [])
  | [c] => ([], [c])
  | c :: d :: rest =>
    if c = '\n' ∧ d = '\n' then
      let r := splitNN rest
      ([] :: r.1, r.2)
    else
      match splitNN (d :: rest) with
      | ([], l) => ([], c :: l)
      | (e :: es, l) => ((c :: e) :: es, l)

/-- `eventStr.split('\n')`. -/
def splitLines : List Char → List (List Char)
  | [] => [[]]
  | c :: rest =>
    if c = '\n' then [] :: splitLines rest
    else
      match splitLines rest with
      | [] => [[c]]
      | l :: ls => (c :: l) :: ls

/-- JavaScript `trim` whitespace (the characters that matter here). -/
def isWs (c : Char) : Bool :=
  c = ' ' || c = '\t' || c = '\n' || c = '\r' ||
  c = '\x0b' || c = '\x0c' || c = '\u00A0' || c = '\uFEFF'

/-- `s.trim()` on a character list. -/
def trimL (l : List Char) : List Char :=
  ((l.dropWhile isWs).reverse.dropWhile isWs).reverse

/-- Leading decimal digits of a trimmed numeral, `none` when there is
no digit (`parseInt` returns `NaN`); trailing garbage is ignored. -/
def jsParseIntCore (l : List Char) : Option Nat :=
  let ds := l.takeWhile (fun c => c.isDigit)
  if ds.isEmpty then none
  else some (ds.foldl (fun acc c => acc * 10 + (c.toNat - 48)) 0)

/-- JavaScript `parseInt(s, 10)` on an already-trimmed string, with
`none` standing for `NaN`. -/
def jsParseInt : List Char → Option Int
  | '-' :: rest => (jsParseIntCore rest).map (fun n => -(n : Int))
  | '+' :: rest => (jsParseIntCore rest).map (fun n => (n : Int))
  | l => (jsParseIntCore l).map (fun n => (n : Int))

/-- A parsed SSE event; the payload is either the structured decode
(`Sum.inl`) or the raw payload text when the decode failed (`Sum.inr`). -/
structure SSEEvent (α : Type) where
  event : Option (List Char)
  data : Sum α (List Char)
  id : Option (List Char)
  retry : Option Int
  deriving DecidableEq

/-- Accumulator of the per-line loop inside the frame parser. -/
structure FrameAcc where
  event : Option (List Char)
  id : Option (List Char)
  retry : Option Int
  dataLines : List (List Char)

/-- The freshly initialised event object `{ data: '' }`. -/
def initAcc : FrameAcc :=
  { event := none, id := none, retry := none, dataLines := [] }

/-- `line.startsWith(p)`. -/
def lineStartsWith (p : String) (l : List Char) : Bool :=
  p.data.isPrefixOf l

/-- One iteration of the field loop: `event:` and `id:` set fields,
`data:` appends a payload line, `retry:` parses an integer; values are
the rest of the line, trimmed. -/
def procLine (acc : FrameAcc) (line : List Char) : FrameAcc :=
  if lineStartsWith "event:" line then
    { acc with event := some (trimL (List.drop 6 line)) }
  else if lineStartsWith "data:" line then
    { acc with dataLines := acc.dataLines ++ [trimL (List.drop 5 line)] }
  else if lineStartsWith "id:" line then
    { acc with id := some (trimL (List.drop 3 line)) }
  else if lineStartsWith "retry:" line then
    { acc with retry := jsParseInt (trimL (List.drop 6 line)) }
  else acc

/-- `dataLines.join('\n')`. -/
def joinNL : List (List Char) → List Char
  | [] => []
  | [l] => l
  | l :: ls => l ++ '\n' :: joinNL ls

/-- Parse one frame: split into lines, run the field loop, join the
data lines with a newline and attempt the structured decode, keeping
the raw text when it fails. -/
def parseFrame {α : Type} (dec : List Char → Option α) (frame : List Char) :
    SSEEvent α :=
  let acc := (splitLines frame).foldl procLine initAcc
  let payload := joinNL acc.dataLines
  { event := acc.event, id := acc.id, retry := acc.retry,
    data :=
      match dec payload with
      | some v => Sum.inl v
      | none => Sum.inr payload }

/-- Spec-side description of the payload text: the `data:` line values
in order, joined with a newline. -/
def specPayload (frame : List Char) : List Char :=
  joinNL (((splitLines frame).filter (fun l => lineStartsWith "data:" l)).map
    (fun l => trimL (List.drop 5 l)))

/-- Parser state carried between reads: undecoded trailing bytes and
the unterminated text buffer. -/
structure SSEState where
  pending : List Nat
  buffer : List Char

/-- State before the first read. -/
def initSSE : SSEState := { pending := [], buffer := [] }

/-- Process one byte chunk: decode, extend the buffer, split off the
completed frames (skipping blank ones) and parse each into an event. -/
def feedChunk {α : Type} (dec : List Char → Option α) (st : SSEState)
    (chunk : List Nat) : List (SSEEvent α) × SSEState :=
  let d := decodeLoop (st.pending ++ chunk)
  let s := splitNN (st.buffer ++ d.1)
  ((s.1.filter (fun f => !(trimL f).isEmpty)).map (parseFrame dec),
   { pending := d.2, buffer := s.2 })

/-- Feed a list of chunks in order, concatenating the emitted events;
whatever is left in the state when the stream ends is discarded. -/
def runChunks {α : Type} (dec : List Char → Option α) :
    SSEState → List (List Nat) → List (SSEEvent α)
  | _, [] => []
  | st, c :: cs =>
    let r := feedChunk dec st c
    r.1 ++ runChunks dec r.2 cs

/-- The whole parser, from the initial state. -/
def parseSSEStream {α : Type} (dec : List Char → Option α)
    (chunks : List (List Nat)) : List (SSEEvent α) :=
  runChunks dec initSSE chunks

/-- A state is quiescent when feeding it nothing emits nothing: its
pending bytes are an incomplete sequence and its buffer holds no frame
separator.  Every reachable state is quiescent. -/
def Quiet (st : SSEState) : Prop :=
  decodeLoop st.pending = ([], st.pending) ∧ splitNN st.buffer = ([], st.buffer)

/-! # SSE connection manager (src/core/eden.ts, `subscribe`)

`subscribe` owns `reconnectCount`, `lastEventId` and the configuration
`reconnectInterval` (default 3000 ms) and `maxReconnects` (default 5).
Each call of `connect` plays one connection attempt against the
environment; the outcome of the attempt is input data.  On a
non-user-initiated failure the catch block fires `onError`, and, when
`reconnectCount < maxReconnects`, increments the counter, fires
`onReconnect(count, max)` and schedules the next `connect` after
`reconnectInterval` milliseconds; otherwise it fires `onMaxReconnects`
and stops.  On a successful open the counter resets to zero before any
later failure is handled. -/

/-- Subscription options (`reconnectInterval`, `maxReconnects`). -/
structure SSEConfig where
  reconnectInterval : Nat
  maxReconnects : Nat

/-- The defaults `options?.reconnectInterval ?? 3000` and
`options?.maxReconnects ?? 5`. -/
def defaultSSEConfig : SSEConfig :=
  { reconnectInterval := 3000, maxReconnects := 5 }

/-- Mutable state of one subscription that the claims observe. -/
structure SubState where
  reconnectCount : Nat
  lastEventId : Option (List Char)
  deriving DecidableEq

/-- State right after `subscribe` is entered. -/
def initSub : SubState := { reconnectCount := 0, lastEventId := none }

/-- How one connection attempt ends.  `failPre` is a failure before the
stream opened (fetch rejection, non-ok status, missing body); its flag
tells whether it was an `AbortError`/unsubscribe. `opened` delivers the
parsed events and then ends either cleanly or with a mid-stream error,
whose flag again marks user cancellation. -/
inductive EndKind where
  | clean
  | errored (userAbort : Bool)
  deriving DecidableEq

inductive ConnOutcome (α : Type) where
  | failPre (userAbort : Bool)
  | opened (events : List (SSEEvent α)) (endKind : EndKind)
  deriving DecidableEq

/-- Callback invocations observable by the subscriber. -/
inductive CB (α : Type) where
  | cbOpen
  | cbMessage (data : Sum α (List Char))
  | cbError
  | cbClose
  | cbReconnect (attempt maxAttempts : Nat)
  | cbMaxReconnects
  deriving DecidableEq

/-- Recogniser for the `onMaxReconnects` callback. -/
def isMaxCb {α : Type} : CB α → Bool
  | CB.cbMaxReconnects => true
  | _ => false

/-- `if (event.id) lastEventId = event.id` folded over the received
events. -/
def updateLastId {α : Type} (init : Option (List Char))
    (events : List (SSEEvent α)) : Option (List Char) :=
  events.foldl (fun acc e => match e.id with | some i => some i | none => acc) init

/-- Dispatch of one received event: the `error` event name goes to
`onError`, everything else to `onMessage`. -/
def eventCb {α : Type} (e : SSEEvent α) : CB α :=
  if e.event = some (String.data "error") then CB.cbError else CB.cbMessage e.data

/-- The catch-block reconnection logic: `pre` are the callbacks already
fired during the attempt.  Returns the full callback list and, when a
retry was scheduled, the delay and the state carried into it. -/
def reconnectStep {α : Type} (cfg : SSEConfig) (st : SubState)
    (pre : List (CB α)) : List (CB α) × Option (Nat × SubState) :=
  if st.reconnectCount < cfg.maxReconnects then
    (pre ++ [CB.cbError, CB.cbReconnect (st.reconnectCount + 1) cfg.maxReconnects],
     some (cfg.reconnectInterval,
       { reconnectCount := st.reconnectCount + 1, lastEventId := st.lastEventId }))
  else
    (pre ++ [CB.cbError, CB.cbMaxReconnects], none)

/-- One `connect` attempt: callbacks fired, and the scheduled retry
(delay plus carried state) if any. -/
def stepConn {α : Type} (cfg : SSEConfig) (st : SubState) :
    ConnOutcome α → List (CB α) × Option (Nat × SubState)
  | ConnOutcome.failPre true => ([], none)
  | ConnOutcome.failPre false => reconnectStep cfg st []
  | ConnOutcome.opened events endKind =>
    let stOpen : SubState :=
      { reconnectCount := 0, lastEventId := updateLastId st.lastEventId events }
    let pre := CB.cbOpen :: events.map eventCb
    match endKind with
    | EndKind.clean => (pre ++ [CB.cbClose], none)
    | EndKind.errored true => (pre, none)
    | EndKind.errored false => reconnectStep cfg stOpen pre

/-- Run a subscription against a sequence of attempt outcomes,
collecting the callbacks and the scheduled backoff delays; once an
attempt schedules no retry the remaining outcomes never happen. -/
def runSub {α : Type} (cfg : SSEConfig) :
    SubState → List (ConnOutcome α) → List (CB α) × List Nat
  | _, [] => ([], [])
  | st, oc :: rest =>
    match stepConn cfg st oc with
    | (cbs, none) => (cbs, [])
    | (cbs, some (d, st')) =>
      let r := runSub cfg st' rest
      (cbs ++ r.1, d :: r.2)

/-- The backoff delay the specification prescribes:
`min(baseInterval * 2 ^ (attempt - 1), 30000)`. -/
def specBackoff (baseInterval attempt : Nat) : Nat :=
  min (baseInterval * 2 ^ (attempt - 1)) 30000
/-- Case equation: a call at an index at or below the cursor rejects. -/
theorem dispatch_guard (mws : List MwProg) (i : Nat) (index : Int)
    (hle : (i : Int) ≤ index) :
    dispatch mws i index = Except.error invariantMsg := by
  rw [dispatch.eq_def, if_pos hle]

/-- Case equation: past the end of the list the terminal handler runs. -/
theorem dispatch_final (mws : List MwProg) (i : Nat) (index : Int)
    (hnle : ¬ (i : Int) ≤ index) (hnlt : ¬ i < mws.length) :
    dispatch mws i index = Except.ok (0, (i : Int)) := by
  rw [dispatch.eq_def, if_neg hnle, dif_neg hnlt]

/-- Case equation: a short-circuiting middleware returns its own
response without touching the rest of the chain. -/
theorem dispatch_short (mws : List MwProg) (i : Nat) (index : Int)
    (hnle : ¬ (i : Int) ≤ index) (h : i < mws.length)
    (hm : mws.get ⟨i, h⟩ = MwProg.short) :
    dispatch mws i index = Except.ok (100 + i, (i : Int)) := by
  rw [dispatch.eq_def, if_neg hnle, dif_pos h, hm]

/-- Case equation: a middleware that calls `next` once returns the
result of dispatching the rest of the chain. -/
theorem dispatch_once (mws : List MwProg) (i : Nat) (index : Int)
    (hnle : ¬ (i : Int) ≤ index) (h : i < mws.length)
    (hm : mws.get ⟨i, h⟩ = MwProg.callOnce) :
    dispatch mws i index = dispatch mws (i + 1) (i : Int) := by
  rw [dispatch.eq_def, if_neg hnle, dif_pos h, hm]

/-- Case equation: a middleware that calls `next` twice dispatches the
tail, then dispatches it again with the cursor left by the first call. -/
theorem dispatch_twice (mws : List MwProg) (i : Nat) (index : Int)
    (hnle : ¬ (i : Int) ≤ index) (h : i < mws.length)
    (hm : mws.get ⟨i, h⟩ = MwProg.callTwice) :
    dispatch mws i index =
      match dispatch mws (i + 1) (i : Int) with
      | Except.error e => Except.error e
      | Except.ok (_, idx2) => dispatch mws (i + 1) idx2 := by
  rw [dispatch.eq_def, if_neg hnle, dif_pos h, hm]

/-- A successful `dispatch` leaves the shared cursor at or above the
index it was invoked with. -/
theorem dispatch_ok_cursor_ge (mws : List MwProg) (i : Nat) (index : Int) :
    ∀ r idx', dispatch mws i index = Except.ok (r, idx') → (i : Int) ≤ idx' := by
  induction i, index using dispatch.induct mws with
  | case1 i index hle =>
    intro r idx' h
    rw [dispatch_guard mws i index hle] at h
    exact absurd h (by simp)
  | case2 i index hnle hlt hm =>
    intro r idx' h
    rw [dispatch_short mws i index hnle hlt hm] at h
    simp at h
    omega
  | case3 i index hnle hlt hm ih =>
    intro r idx' h
    rw [dispatch_once mws i index hnle hlt hm] at h
    exact le_trans (by omega) (ih r idx' h)
  | case4 i index hnle hlt hm e he ih =>
    intro r idx' h
    rw [dispatch_twice mws i index hnle hlt hm, he] at h
    exact absurd h (by simp)
  | case5 i index hnle hlt hm r2 idx2 he ih1 ih2 =>
    intro r idx' h
    rw [dispatch_twice mws i index hnle hlt hm, he] at h
    exact le_trans (by omega) (ih2 r idx' h)
  | case6 i index hnle hnlt =>
    intro r idx' h
    rw [dispatch_final mws i index hnle hnlt] at h
    simp at h
    omega

/-- The only rejection the dispatcher ever produces is the
invariant-violation message. -/
theorem dispatch_error_msg (mws : List MwProg) (i : Nat) (index : Int) :
    ∀ e, dispatch mws i index = Except.error e → e = invariantMsg := by
  induction i, index using dispatch.induct mws with
  | case1 i index hle =>
    intro e h
    rw [dispatch_guard mws i index hle] at h
    simpa using h.symm
  | case2 i index hnle hlt hm =>
    intro e h
    rw [dispatch_short mws i index hnle hlt hm] at h
    simp at h
  | case3 i index hnle hlt hm ih =>
    intro e h
    rw [dispatch_once mws i index hnle hlt hm] at h
    exact ih e h
  | case4 i index hnle hlt hm e' he ih =>
    intro e h
    rw [dispatch_twice mws i index hnle hlt hm, he] at h
    simp at h
    subst h
    exact ih e' he
  | case5 i index hnle hlt hm r2 idx2 he ih1 ih2 =>
    intro e h
    rw [dispatch_twice mws i index hnle hlt hm, he] at h
    exact ih2 e h
  | case6 i index hnle hnlt =>
    intro e h
    rw [dispatch_final mws i index hnle hnlt] at h
    simp at h

/-- On a well behaved middleware list, a dispatch from a fresh cursor
position always resolves. -/
theorem dispatch_wellBehaved_ok (mws : List MwProg) (i : Nat) (index : Int)
    (hwb : wellBehaved mws) :
    index < (i : Int) → ∃ r idx', dispatch mws i index = Except.ok (r, idx') := by
  induction i, index using dispatch.induct mws with
  | case1 i index hle =>
    intro hfresh
    omega
  | case2 i index hnle hlt hm =>
    intro hfresh
    exact ⟨100 + i, (i : Int), dispatch_short mws i index hnle hlt hm⟩
  | case3 i index hnle hlt hm ih =>
    intro hfresh
    rw [dispatch_once mws i index hnle hlt hm]
    exact ih (by omega)
  | case4 i index hnle hlt hm e he ih =>
    have hbad := hwb (mws.get ⟨i, hlt⟩) (mws.get_mem i hlt)
    rw [hm] at hbad
    exact absurd rfl hbad
  | case5 i index hnle hlt hm r2 idx2 he ih1 ih2 =>
    have hbad := hwb (mws.get ⟨i, hlt⟩) (mws.get_mem i hlt)
    rw [hm] at hbad
    exact absurd rfl hbad
  | case6 i index hnle hnlt =>
    intro hfresh
    exact ⟨0, (i : Int), dispatch_final mws i index hnle hnlt⟩

/-- A frame that invokes its captured `next` twice makes the whole
dispatch reject with the invariant violation. -/
theorem dispatch_callTwice_rejects (mws : List MwProg) (i : Nat)
    (index : Int) (hfresh : index < (i : Int)) (h : i < mws.length)
    (htwice : mws.get ⟨i, h⟩ = MwProg.callTwice) :
    dispatch mws i index = Except.error invariantMsg := by
  rw [dispatch_twice mws i index (by omega) h htwice]
  cases hfirst : dispatch mws (i + 1) (i : Int) with
  | error e =>
    rw [dispatch_error_msg mws (i + 1) (i : Int) e hfirst]
  | ok p =>
    obtain ⟨r2, idx2⟩ := p
    have hge := dispatch_ok_cursor_ge mws (i + 1) (i : Int) r2 idx2 hfirst
    exact dispatch_guard mws (i + 1) idx2 (by exact_mod_cast hge)

/-! ## Lemmas about the incremental UTF-8 decode -/

theorem needed_pos (b : Nat) : 0 < needed b := by
  unfold needed
  split
  · omega
  · split
    · omega
    · split <;> omega

/-- Decoding a concatenation first yields the chars decoded from the
front part, then continues from the retained bytes. -/
theorem decodeLoop_append (xs ys : List Nat) :
    decodeLoop (xs ++ ys) =
      ((decodeLoop xs).1 ++ (decodeLoop ((decodeLoop xs).2 ++ ys)).1,
       (decodeLoop ((decodeLoop xs).2 ++ ys)).2) := by
  induction xs using decodeLoop.induct with
  | case1 =>
    simp [decodeLoop]
  | case2 b bs hlt =>
    rw [decodeLoop, if_pos hlt]
    simp
  | case3 b bs hge ih =>
    have hn1 : 0 < needed b := needed_pos b
    have hn : needed b ≤ bs.length + 1 := by omega
    have ht : List.take (needed b) (b :: bs ++ ys) = List.take (needed b) (b :: bs) := by
      have := @List.take_append_of_le_length Nat (b :: bs) ys (needed b)
        (show needed b ≤ (b :: bs).length by simpa using hn)
      simpa using this
    have hd : List.drop (needed b - 1) (bs ++ ys) = List.drop (needed b - 1) bs ++ ys :=
      List.drop_append_of_le_length (by omega)
    rw [List.cons_append, decodeLoop, if_neg (by simp; omega),
        decodeLoop, if_neg hge]
    simp only [← List.cons_append, ht, hd, ih]

/-- The retained bytes of a decode are themselves inert: feeding them
alone produces nothing new. -/
theorem decodeLoop_pending (xs : List Nat) :
    decodeLoop (decodeLoop xs).2 = ([], (decodeLoop xs).2) := by
  have h := decodeLoop_append xs []
  simp only [List.append_nil] at h
  obtain ⟨h1, h2⟩ := Prod.ext_iff.mp h
  exact Prod.ext_iff.mpr ⟨List.self_eq_append_right.mp h1, h2.symm⟩

/-! ## Lemmas about the frame splitter -/

/-- When the splitter finds no separator, the residual fragment is the
whole input. -/
theorem splitNN_nil_frag (z : List Char) :
    ∀ l, splitNN z = ([], l) → l = z := by
  induction z using splitNN.induct with
  | case1 =>
    intro l h
    rw [splitNN] at h
    simp at h
    simp [h]
  | case2 c =>
    intro l h
    rw [splitNN] at h
    simp at h
    simp [h]
  | case3 c d rest hnd ih =>
    intro l h
    rw [splitNN, if_pos hnd] at h
    simp at h
  | case4 c d rest hnd l0 hz ih =>
    intro l h
    rw [splitNN, if_neg hnd, hz] at h
    simp at h
    rw [ih l0 hz] at h
    simp [← h]
  | case5 c d rest hnd e es l0 hz ih =>
    intro l h
    rw [splitNN, if_neg hnd, hz] at h
    simp at h

/-- Splitting a concatenation yields the completed frames of the front
part followed by the split of the residue extended with the rest. -/
theorem splitNN_append (a b : List Char) :
    splitNN (a ++ b) =
      ((splitNN a).1 ++ (splitNN ((splitNN a).2 ++ b)).1,
       (splitNN ((splitNN a).2 ++ b)).2) := by
  induction a using splitNN.induct with
  | case1 =>
    simp [splitNN]
  | case2 c =>
    rw [show splitNN [c] = ([], [c]) from rfl]
    simp
  | case3 c d rest hnd ih =>
    obtain ⟨hc, hd⟩ := hnd
    subst hc
    subst hd
    rw [List.cons_append, List.cons_append,
        splitNN, if_pos ⟨rfl, rfl⟩,
        splitNN, if_pos ⟨rfl, rfl⟩]
    simp only [ih]
    simp
  | case4 c d rest hnd l0 hz ih =>
    have hl0 : l0 = d :: rest := splitNN_nil_frag (d :: rest) l0 hz
    subst hl0
    have hsa : splitNN (c :: d :: rest) = ([], c :: d :: rest) := by
      rw [splitNN, if_neg hnd, hz]
    rw [hsa]
    simp only [List.nil_append]
  | case5 c d rest hnd e es l0 hz ih =>
    have hsa : splitNN (c :: d :: rest) = ((c :: e) :: es, l0) := by
      rw [splitNN, if_neg hnd, hz]
    rw [hsa]
    rw [List.cons_append, List.cons_append, splitNN, if_neg hnd]
    rw [← List.cons_append, ih, hz]
    simp

/-- The residual fragment contains no separator: splitting it again is
inert. -/
theorem splitNN_last (x : List Char) :
    splitNN (splitNN x).2 = ([], (splitNN x).2) := by
  have h := splitNN_append x []
  simp only [List.append_nil] at h
  obtain ⟨h1, h2⟩ := Prod.ext_iff.mp h
  exact Prod.ext_iff.mpr ⟨List.self_eq_append_right.mp h1, h2.symm⟩

/-! ## Chunk invariance of the stream parser -/

/-- Feeding a concatenated chunk equals feeding its parts in order. -/
theorem feedChunk_append {α : Type} (dec : List Char → Option α)
    (st : SSEState) (x y : List Nat) :
    feedChunk dec st (x ++ y) =
      ((feedChunk dec st x).1 ++ (feedChunk dec (feedChunk dec st x).2 y).1,
       (feedChunk dec (feedChunk dec st x).2 y).2) := by
  simp only [feedChunk]
  rw [← List.append_assoc, decodeLoop_append (st.pending ++ x) y,
      ← List.append_assoc, splitNN_append (st.buffer ++ (decodeLoop (st.pending ++ x)).1)]
  simp [List.filter_append]

/-- The initial state is quiescent. -/
theorem quiet_init : Quiet initSSE := by
  constructor
  · rw [show initSSE.pending = [] from rfl, decodeLoop]
  · rw [show initSSE.buffer = [] from rfl, splitNN]

/-- Feeding preserves quiescence. -/
theorem quiet_feed {α : Type} (dec : List Char → Option α)
    (st : SSEState) (c : List Nat) : Quiet (feedChunk dec st c).2 := by
  constructor
  · exact decodeLoop_pending (st.pending ++ c)
  · exact splitNN_last (st.buffer ++ (decodeLoop (st.pending ++ c)).1)

/-- A quiescent state emits nothing on an empty read. -/
theorem feedChunk_nil_quiet {α : Type} (dec : List Char → Option α)
    (st : SSEState) (hq : Quiet st) : feedChunk dec st [] = ([], st) := by
  obtain ⟨h1, h2⟩ := hq
  simp only [feedChunk, List.append_nil, h1, h2]
  simp

/-- From a quiescent state, a chunk list produces the same events as
its concatenation fed at once. -/
theorem runChunks_join {α : Type} (dec : List Char → Option α) :
    ∀ (chunks : List (List Nat)) (st : SSEState), Quiet st →
      runChunks dec st chunks = (feedChunk dec st chunks.flatten).1 := by
  intro chunks
  induction chunks with
  | nil =>
    intro st hq
    rw [show ([] : List (List Nat)).flatten = [] from rfl, feedChunk_nil_quiet dec st hq]
    rfl
  | cons c cs ih =>
    intro st hq
    rw [show (c :: cs).flatten = c ++ cs.flatten from rfl, feedChunk_append dec st c cs.flatten]
    simp only [runChunks]
    rw [ih (feedChunk dec st c).2 (quiet_feed dec st c)]

/-! ## Lemmas about the per-frame field loop -/

/-- A line matching a prefix starts with the prefix's first character. -/
theorem lineStartsWith_shape (p : String) (c : Char) (cs : List Char)
    (hp : p.data = c :: cs) (l : List Char) (h : lineStartsWith p l = true) :
    ∃ t, l = c :: t := by
  cases l with
  | nil =>
    rw [lineStartsWith, hp] at h
    simp [List.isPrefixOf] at h
  | cons x xs =>
    rw [lineStartsWith, hp] at h
    simp [List.isPrefixOf] at h
    exact ⟨xs, by rw [h.1]⟩

/-- A line starting with one character cannot match a field prefix that
begins with a different character. -/
theorem lineStartsWith_head_ne (p : String) (c' c : Char) (cs : List Char)
    (hp : p.data = c' :: cs) (hne : c' ≠ c) (t : List Char) :
    lineStartsWith p (c :: t) = false := by
  rw [lineStartsWith, hp]
  simp [List.isPrefixOf]
  intro h
  exact absurd h hne

/-- Effect of one line on the collected data lines. -/
theorem procLine_dataLines (acc : FrameAcc) (l : List Char) :
    (procLine acc l).dataLines =
      if lineStartsWith "data:" l then acc.dataLines ++ [trimL (List.drop 5 l)]
      else acc.dataLines := by
  by_cases hd : lineStartsWith "data:" l = true
  · obtain ⟨t, rfl⟩ := lineStartsWith_shape "data:" 'd' _ rfl l hd
    have he : lineStartsWith "event:" ('d' :: t) = false :=
      lineStartsWith_head_ne "event:" 'e' 'd' _ rfl (by decide) t
    rw [procLine, he, hd]
    simp
  · rw [procLine]
    simp only [Bool.not_eq_true] at hd
    rw [hd]
    simp only [Bool.false_eq_true, if_false]
    split
    · rfl
    · split
      · rfl
      · split
        · rfl
        · rfl

/-- Effect of one line on the retry field. -/
theorem procLine_retry (acc : FrameAcc) (l : List Char) :
    (procLine acc l).retry =
      if lineStartsWith "retry:" l then jsParseInt (trimL (List.drop 6 l))
      else acc.retry := by
  by_cases hr : lineStartsWith "retry:" l = true
  · obtain ⟨t, rfl⟩ := lineStartsWith_shape "retry:" 'r' _ rfl l hr
    have he : lineStartsWith "event:" ('r' :: t) = false :=
      lineStartsWith_head_ne "event:" 'e' 'r' _ rfl (by decide) t
    have hd : lineStartsWith "data:" ('r' :: t) = false :=
      lineStartsWith_head_ne "data:" 'd' 'r' _ rfl (by decide) t
    have hi : lineStartsWith "id:" ('r' :: t) = false :=
      lineStartsWith_head_ne "id:" 'i' 'r' _ rfl (by decide) t
    rw [procLine, he, hd, hi, hr]
    simp
  · rw [procLine]
    simp only [Bool.not_eq_true] at hr
    rw [hr]
    split
    · rfl
    · split
      · rfl
      · split
        · rfl
        · simp only [Bool.false_eq_true, if_false]

/-- The data lines collected by the loop are exactly the `data:` line
values in order. -/
theorem foldl_dataLines (lines : List (List Char)) :
    ∀ acc : FrameAcc,
      (lines.foldl procLine acc).dataLines =
        acc.dataLines ++
          (lines.filter (fun l => lineStartsWith "data:" l)).map
            (fun l => trimL (List.drop 5 l)) := by
  induction lines with
  | nil =>
    intro acc
    simp
  | cons l ls ih =>
    intro acc
    rw [List.foldl_cons, ih (procLine acc l), procLine_dataLines]
    by_cases hd : lineStartsWith "data:" l = true
    · rw [if_pos hd, List.filter_cons_of_pos (by simpa using hd)]
      simp
    · simp only [Bool.not_eq_true] at hd
      rw [hd]
      rw [List.filter_cons_of_neg (by simp [hd])]
      simp

/-- The retry field after the loop is the parse of the last `retry:`
line value (the fold keeps overwriting). -/
theorem foldl_retry (lines : List (List Char)) :
    ∀ acc : FrameAcc,
      (lines.foldl procLine acc).retry =
        (lines.filter (fun l => lineStartsWith "retry:" l)).foldl
          (fun _ l => jsParseInt (trimL (List.drop 6 l))) acc.retry := by
  induction lines with
  | nil =>
    intro acc
    simp
  | cons l ls ih =>
    intro acc
    rw [List.foldl_cons, ih (procLine acc l), procLine_retry]
    by_cases hr : lineStartsWith "retry:" l = true
    · rw [if_pos hr, List.filter_cons_of_pos (by simpa using hr)]
      simp
    · simp only [Bool.not_eq_true] at hr
      rw [hr]
      rw [List.filter_cons_of_neg (by simp [hr])]
      simp

/-- The payload the parser hands to the structured decode is the
`data:` line values joined with a newline; on decode failure the raw
text is kept, and parsing itself never fails. -/
theorem parseFrame_payload {α : Type} (dec : List Char → Option α)
    (frame : List Char) :
    (parseFrame dec frame).data =
      match dec (specPayload frame) with
      | some v => Sum.inl v
      | none => Sum.inr (specPayload frame) := by
  have h := foldl_dataLines (splitLines frame) initAcc
  rw [show initAcc.dataLines = [] from rfl, List.nil_append] at h
  simp only [parseFrame, specPayload, h]

/-- The retry field of a parsed frame is the integer parse of the last
`retry:` line value, `none` when the frame carries no such line. -/
theorem parseFrame_retry_eq {α : Type} (dec : List Char → Option α)
    (frame : List Char) :
    (parseFrame dec frame).retry =
      ((splitLines frame).filter (fun l => lineStartsWith "retry:" l)).foldl
        (fun _ l => jsParseInt (trimL (List.drop 6 l))) none := by
  have h := foldl_retry (splitLines frame) initAcc
  rw [show initAcc.retry = none from rfl] at h
  simp only [parseFrame, h]

/-! ## Lemmas about the reconnection state machine -/


/-- Any scheduled retry waits exactly the configured constant
interval, carries a counter that was just incremented (so it is never
zero), decreases only after a successful open, and after an open it is
exactly one. -/
theorem stepConn_sched {α : Type} (cfg : SSEConfig) (st : SubState)
    (oc : ConnOutcome α) (d : Nat) (st' : SubState)
    (h : (stepConn cfg st oc).2 = some (d, st')) :
    d = cfg.reconnectInterval ∧ 1 ≤ st'.reconnectCount ∧
    (st'.reconnectCount ≤ st.reconnectCount →
      ∃ evs ek, oc = ConnOutcome.opened evs ek) ∧
    ((∃ evs ek, oc = ConnOutcome.opened evs ek) → st'.reconnectCount = 1) := by
  cases oc with
  | failPre u =>
    cases u with
    | true => simp [stepConn] at h
    | false =>
      rw [stepConn, reconnectStep] at h
      by_cases hc : st.reconnectCount < cfg.maxReconnects
      · rw [if_pos hc] at h
        simp at h
        obtain ⟨hd, hst⟩ := h
        refine ⟨hd.symm, ?_, ?_, ?_⟩
        · rw [← hst]
          simp
        · intro hle
          rw [← hst] at hle
          simp at hle
        · rintro ⟨evs, ek, hoc⟩
          exact absurd hoc (by simp)
      · rw [if_neg hc] at h
        simp at h
  | opened evs ek =>
    cases ek with
    | clean => simp [stepConn] at h
    | errored u =>
      cases u with
      | true => simp [stepConn] at h
      | false =>
        rw [stepConn] at h
        simp only [reconnectStep] at h
        by_cases hc : 0 < cfg.maxReconnects
        · rw [if_pos (by simpa using hc)] at h
          simp at h
          obtain ⟨hd, hst⟩ := h
          refine ⟨hd.symm, ?_, ?_, ?_⟩
          · rw [← hst]
          · intro hle
            exact ⟨evs, EndKind.errored false, rfl⟩
          · intro hop
            rw [← hst]
        · rw [if_neg (by simpa using hc)] at h
          simp at h

/-- Every backoff delay ever scheduled equals the configured
reconnect interval. -/
theorem runSub_delays {α : Type} (cfg : SSEConfig) :
    ∀ (ocs : List (ConnOutcome α)) (st : SubState),
      ∀ d ∈ (runSub cfg st ocs).2, d = cfg.reconnectInterval := by
  intro ocs
  induction ocs with
  | nil =>
    intro st d hd
    simp [runSub] at hd
  | cons oc rest ih =>
    intro st d hd
    rw [runSub] at hd
    cases hstep : stepConn cfg st oc with
    | mk cbs next =>
      cases next with
      | none =>
        rw [hstep] at hd
        simp at hd
      | some p =>
        obtain ⟨d0, st'⟩ := p
        rw [hstep] at hd
        simp at hd
        cases hd with
        | inl h =>
          rw [h]
          exact (stepConn_sched cfg st oc d0 st' (by rw [hstep])).1
        | inr h =>
          exact ih st' d h

/-- When the counter has already reached the maximum, a failure fires
only `onError` and `onMaxReconnects`, schedules nothing, and every
outcome after it never happens. -/
theorem runSub_max_stop {α : Type} (cfg : SSEConfig) (st : SubState)
    (hge : cfg.maxReconnects ≤ st.reconnectCount)
    (rest : List (ConnOutcome α)) :
    runSub cfg st (ConnOutcome.failPre false :: rest) =
      ([CB.cbError, CB.cbMaxReconnects], []) := by
  rw [runSub, stepConn, reconnectStep, if_neg (by omega)]
  simp

/-- One attempt fires the max-reconnects callback at most once, and
never when a retry was scheduled. -/
theorem stepConn_max_count {α : Type} (cfg : SSEConfig) (st : SubState)
    (oc : ConnOutcome α) :
    (stepConn cfg st oc).1.countP isMaxCb ≤ 1 ∧
    ((stepConn cfg st oc).2.isSome = true →
      (stepConn cfg st oc).1.countP isMaxCb = 0) := by
  have hev : ∀ (evs : List (SSEEvent α)),
      (evs.map eventCb).countP isMaxCb = 0 := by
    intro evs
    rw [List.countP_eq_zero]
    intro cb hcb
    rw [List.mem_map] at hcb
    obtain ⟨e, _, he⟩ := hcb
    rw [← he, eventCb]
    by_cases hname : e.event = some (String.data "error")
    · rw [if_pos hname]
      simp [isMaxCb]
    · rw [if_neg hname]
      simp [isMaxCb]
  have hstep : ∀ (st0 : SubState) (pre : List (CB α)),
      pre.countP isMaxCb = 0 →
      (reconnectStep cfg st0 pre).1.countP isMaxCb ≤ 1 ∧
      ((reconnectStep cfg st0 pre).2.isSome = true →
        (reconnectStep cfg st0 pre).1.countP isMaxCb = 0) := by
    intro st0 pre hpre
    rw [reconnectStep]
    by_cases hc : st0.reconnectCount < cfg.maxReconnects
    · rw [if_pos hc]
      constructor
      · simp [List.countP_append, hpre, List.countP_cons, isMaxCb]
      · intro _
        simp [List.countP_append, hpre, List.countP_cons, isMaxCb]
    · rw [if_neg hc]
      constructor
      · simp [List.countP_append, hpre, List.countP_cons, isMaxCb]
      · intro hsome
        simp at hsome
  cases oc with
  | failPre u =>
    cases u with
    | true =>
      constructor
      · simp [stepConn]
      · intro hsome
        simp [stepConn] at hsome
    | false =>
      rw [stepConn]
      exact hstep st [] (by simp)
  | opened evs ek =>
    cases ek with
    | clean =>
      rw [stepConn]
      constructor
      · simp [List.countP_append, List.countP_cons, hev evs, isMaxCb]
      · intro hsome
        simp at hsome
    | errored u =>
      cases u with
      | true =>
        rw [stepConn]
        constructor
        · simp [List.countP_cons, hev evs, isMaxCb]
        · intro hsome
          simp at hsome
      | false =>
        rw [stepConn]
        exact hstep _ (CB.cbOpen :: evs.map eventCb)
          (by simp [List.countP_cons, hev evs, isMaxCb])

/-- Over a whole subscription run the max-reconnects callback fires at
most once. -/
theorem runSub_max_once {α : Type} (cfg : SSEConfig) :
    ∀ (ocs : List (ConnOutcome α)) (st : SubState),
      (runSub cfg st ocs).1.countP isMaxCb ≤ 1 := by
  intro ocs
  induction ocs with
  | nil =>
    intro st
    simp [runSub]
  | cons oc rest ih =>
    intro st
    rw [runSub]
    cases hstep : stepConn cfg st oc with
    | mk cbs next =>
      cases next with
      | none =>
        have := (stepConn_max_count cfg st oc).1
        rw [hstep] at this
        simpa using this
      | some p =>
        obtain ⟨d0, st'⟩ := p
        have := (stepConn_max_count cfg st oc).2 (by rw [hstep]; rfl)
        rw [hstep] at this
        simp only [List.countP_append]
        simp only at this
        rw [this]
        simpa using ih st'

/-- Behaviour over `n` consecutive pre-open failures while the counter
stays within the maximum: each failure increments the counter, fires
`onError` then `onReconnect(count, max)`, and schedules the constant
configured interval. -/
theorem runSub_failures {α : Type} (cfg : SSEConfig) :
    ∀ (n c : Nat) (lastId : Option (List Char)), c + n ≤ cfg.maxReconnects →
      runSub (α := α) cfg { reconnectCount := c, lastEventId := lastId }
          (List.replicate n (ConnOutcome.failPre false)) =
        (((List.range n).map (fun j =>
            [CB.cbError, CB.cbReconnect (c + j + 1) cfg.maxReconnects])).flatten,
         List.replicate n cfg.reconnectInterval) := by
  intro n
  induction n with
  | zero =>
    intro c lastId hle
    simp [runSub]
  | succ n ih =>
    intro c lastId hle
    rw [List.replicate_succ, runSub, stepConn, reconnectStep,
        if_pos (show ({ reconnectCount := c, lastEventId := lastId } :
          SubState).reconnectCount < cfg.maxReconnects by
            show c < cfg.maxReconnects
            omega)]
    simp only []
    rw [ih (c + 1) lastId (by omega)]
    refine Prod.ext_iff.mpr ⟨?_, ?_⟩
    · rw [List.range_succ_eq_map]
      simp only [List.map_cons, List.map_map, List.flatten_cons, Nat.add_zero,
        List.nil_append]
      congr 1
      congr 1
      apply List.map_congr_left
      intro j hj
      simp only [Function.comp_apply]
      have harith : c + 1 + j + 1 = c + (j + 1) + 1 := by omega
      rw [harith]
    · rw [List.replicate_succ]

/-! # The claims -/

/-- C1: for every middleware list and frame, invoking the captured
`next` a second time within the same frame — that is, calling
`dispatch` with an index at or below the highest index already
dispatched — rejects with the invariant-violation error, and a
middleware whose program calls `next` twice makes the whole dispatch
reject; a first invocation at a fresh index never does (on a chain
whose members each call `next` at most once, it resolves). -/
theorem claim_C1_next_called_once (mws : List MwProg) (i : Nat) (index : Int) :
    ((i : Int) ≤ index → dispatch mws i index = Except.error invariantMsg) ∧
    (∀ h : i < mws.length, mws.get ⟨i, h⟩ = MwProg.callTwice →
      index < (i : Int) → dispatch mws i index = Except.error invariantMsg) ∧
    (index < (i : Int) → wellBehaved mws →
      ∃ r idx', dispatch mws i index = Except.ok (r, idx')) :=
  ⟨fun hle => dispatch_guard mws i index hle,
   fun h htw hf => dispatch_callTwice_rejects mws i index hf h htw,
   fun hf hwb => dispatch_wellBehaved_ok mws i index hwb hf⟩

/-- Witness for C1 at concrete inputs: a repeated dispatch at index 0
rejects, a middleware calling `next` twice rejects the chain, and a
fresh dispatch over well behaved middleware resolves. -/
theorem claim_C1_witness :
    dispatch [MwProg.callOnce] 0 0 = Except.error invariantMsg ∧
    dispatch [MwProg.callTwice] 0 (-1) = Except.error invariantMsg ∧
    ∃ r idx', dispatch [MwProg.callOnce, MwProg.short] 0 (-1) = Except.ok (r, idx') :=
  ⟨(claim_C1_next_called_once [MwProg.callOnce] 0 0).1 (by decide),
   (claim_C1_next_called_once [MwProg.callTwice] 0 (-1)).2.1
     (by decide) (by decide) (by decide),
   (claim_C1_next_called_once [MwProg.callOnce, MwProg.short] 0 (-1)).2.2
     (by decide) (by decide)⟩

/-- C7: the payload handed to the structured decode is exactly the
`data:` line values collected in order and joined with a newline; a
failed decode keeps the plain text and the parse itself is total —
in particular a frame with data lines `a` and `b` decodes the string
`a\nb`. -/
theorem claim_C7_multiline_data (α : Type) :
    (∀ (dec : List Char → Option α) (frame : List Char),
      (parseFrame dec frame).data =
        match dec (specPayload frame) with
        | some v => Sum.inl v
        | none => Sum.inr (specPayload frame)) ∧
    specPayload (String.data "data: a\ndata: b") = String.data "a\nb" ∧
    (∀ dec : List Char → Option α,
      (parseFrame dec (String.data "data: a\ndata: b")).data =
        match dec (String.data "a\nb") with
        | some v => Sum.inl v
        | none => Sum.inr (String.data "a\nb")) :=
  ⟨fun dec frame => parseFrame_payload dec frame,
   rfl,
   fun dec => parseFrame_payload dec (String.data "data: a\ndata: b")⟩

/-- C8: feeding a byte stream in arbitrary chunks — boundaries may
fall inside a field or inside a multi-byte UTF-8 character, since
chunks are raw byte lists — yields exactly the events of the whole
content delivered as one chunk. -/
theorem claim_C8_chunk_invariance {α : Type} (dec : List Char → Option α)
    (chunks : List (List Nat)) :
    parseSSEStream dec chunks = parseSSEStream dec [chunks.flatten] := by
  rw [parseSSEStream, parseSSEStream,
      runChunks_join dec chunks initSSE quiet_init,
      runChunks, runChunks]
  simp

/-- C10: a `retry:` field is parsed into the event's retry field (the
last such line wins, via the overwriting fold), but the delay before
every reconnection attempt is always the configured constant
reconnect interval, whatever events and retry hints were received. -/
theorem claim_C10_retry_hint_ignored {α : Type} (cfg : SSEConfig) :
    (∀ (dec : List Char → Option α) (frame : List Char),
      (parseFrame dec frame).retry =
        ((splitLines frame).filter (fun l => lineStartsWith "retry:" l)).foldl
          (fun _ l => jsParseInt (trimL (List.drop 6 l))) none) ∧
    (∀ dec : List Char → Option α,
      (parseFrame dec (String.data "retry: 5000\ndata: x")).retry = some 5000) ∧
    (∀ (ocs : List (ConnOutcome α)) (st : SubState),
      ∀ d ∈ (runSub cfg st ocs).2, d = cfg.reconnectInterval) :=
  ⟨fun dec frame => parseFrame_retry_eq dec frame,
   fun dec => by
     rw [parseFrame_retry_eq]
     rfl,
   fun ocs st => runSub_delays cfg ocs st⟩

/-- Witness for C10: the sole delay scheduled after one failure under
the default configuration is the constant 3000 ms interval. -/
theorem claim_C10_witness :
    (3000 : Nat) ∈ (runSub (α := Unit) defaultSSEConfig initSub
      [ConnOutcome.failPre false]).2 ∧ (3000 : Nat) = defaultSSEConfig.reconnectInterval :=
  ⟨by decide,
   (claim_C10_retry_hint_ignored (α := Unit) defaultSSEConfig).2.2
     [ConnOutcome.failPre false] initSub 3000 (by decide)⟩

/-- C2 counterexample: a 304 reply lies in the claimed 2xx/3xx success
range, yet the pipeline classifies it as an error (`response.ok` is
the 2xx test), so "success iff 2xx/3xx" is false at status 304. -/
theorem claim_C2_counterexample :
    (200 ≤ 304 ∧ 304 < 400) ∧
    (finalHandler false (FetchResult.reply 304 (BodyKind.textBody "x"))).error ≠ none ∧
    (finalHandler false (FetchResult.reply 304 (BodyKind.textBody "x"))).data = none := by
  refine ⟨⟨by omega, by omega⟩, ?_, rfl⟩
  have h : (finalHandler false (FetchResult.reply 304 (BodyKind.textBody "x"))).error =
      some { code := JVal.jnum 304, message := JVal.jstr "HTTP 304",
             etype := ErrorType.server } := rfl
  rw [h]
  simp

/-- C2 (amended): the result of a resolved reply is classified as
success — error null — iff the status is in the 2xx range (200–299);
the classification is independent of the decoded payload. -/
theorem claim_C2_success_iff_2xx (b : Bool) (status : Nat) (body body' : BodyKind) :
    ((finalHandler b (FetchResult.reply status body)).error = none ↔
      200 ≤ status ∧ status < 300) ∧
    ((finalHandler b (FetchResult.reply status body)).error = none ↔
     (finalHandler b (FetchResult.reply status body')).error = none) := by
  have hcase : ∀ c : BodyKind, (finalHandler b (FetchResult.reply status c)).error = none ↔
      200 ≤ status ∧ status < 300 := by
    intro c
    rw [finalHandler]
    by_cases hok : responseOk status = true
    · rw [if_pos hok]
      simp only [createSuccessResponse]
      rw [responseOk] at hok
      simp at hok
      simpa using hok
    · rw [if_neg hok]
      simp only [createErrorResponse]
      rw [responseOk] at hok
      simp at hok
      constructor
      · intro hc
        exact absurd hc (by simp)
      · intro hc
        omega
  exact ⟨hcase body, (hcase body).trans (hcase body').symm⟩

/-- C4: a transport-level failure never escapes the final handler —
the result always carries a populated error and null data — and is
classified as timeout when an abort fired without the caller's signal
being set, abort when the caller's signal was set, and network
otherwise; in particular an externally aborted call yields kind
`abort`. -/
theorem claim_C4_transport_classification (userAborted : Bool) (msg : String) :
    (finalHandler userAborted FetchResult.abortError =
      createErrorResponse (JVal.jnum (if userAborted then 0 else 408))
        (JVal.jstr (if userAborted then "请求已取消" else "请求超时"))
        (if userAborted then ErrorType.abort else ErrorType.timeout) none) ∧
    ((finalHandler userAborted FetchResult.abortError).data = none ∧
     (finalHandler userAborted FetchResult.abortError).error ≠ none) ∧
    ((finalHandler userAborted (FetchResult.otherError msg)).data = none ∧
     ∃ m, (finalHandler userAborted (FetchResult.otherError msg)).error =
        some { code := JVal.jnum 0, message := m, etype := ErrorType.network }) ∧
    (∃ e, (finalHandler true FetchResult.abortError).error = some e ∧
      e.etype = ErrorType.abort) := by
  refine ⟨?_, ⟨?_, ?_⟩, ⟨rfl, ?_⟩, ?_⟩
  · cases userAborted with
    | true => rfl
    | false => rfl
  · cases userAborted with
    | true => rfl
    | false => rfl
  · cases userAborted with
    | true =>
      have h : (finalHandler true FetchResult.abortError).error =
          some { code := JVal.jnum 0, message := JVal.jstr "请求已取消",
                 etype := ErrorType.abort } := rfl
      rw [h]
      simp
    | false =>
      have h : (finalHandler false FetchResult.abortError).error =
          some { code := JVal.jnum 408, message := JVal.jstr "请求超时",
                 etype := ErrorType.timeout } := rfl
      rw [h]
      simp
  · exact ⟨JVal.jstr (if msg = "" then "网络错误" else msg), rfl⟩
  · exact ⟨{ code := JVal.jnum 0, message := JVal.jstr "请求已取消",
             etype := ErrorType.abort }, rfl, rfl⟩

/-- C5 counterexample: a 200 reply whose content type is neither JSON
nor text leaves `data` undecoded, so the terminal result has both
`data` and `error` null — "exactly one is non-null" is false. -/
theorem claim_C5_counterexample :
    (finalHandler false (FetchResult.reply 200 BodyKind.noBody)).data = none ∧
    (finalHandler false (FetchResult.reply 200 BodyKind.noBody)).error = none :=
  ⟨rfl, rfl⟩

/-- C5 (amended): `data` and `error` are never both non-null; both may
be null when a 2xx reply has no decodable payload. On a non-2xx reply
the error is populated while `raw` and the status are still attached. -/
theorem claim_C5_mutual_exclusion (b : Bool) (fr : FetchResult) :
    (¬((finalHandler b fr).data ≠ none ∧ (finalHandler b fr).error ≠ none)) ∧
    ((finalHandler b fr).error ≠ none → (finalHandler b fr).data = none) ∧
    (∀ status body, ¬ (200 ≤ status ∧ status < 300) →
      (finalHandler b (FetchResult.reply status body)).error ≠ none ∧
      (finalHandler b (FetchResult.reply status body)).hasRaw = true ∧
      (finalHandler b (FetchResult.reply status body)).status = status) := by
  have herr : ∀ status body, ¬ (200 ≤ status ∧ status < 300) →
      (finalHandler b (FetchResult.reply status body)).error ≠ none ∧
      (finalHandler b (FetchResult.reply status body)).hasRaw = true ∧
      (finalHandler b (FetchResult.reply status body)).status = status := by
    intro status body hbad
    have hok : responseOk status = false := by
      rw [responseOk]
      simp only [Bool.and_eq_false_iff, decide_eq_false_iff_not]
      omega
    rw [finalHandler, hok]
    simp only [Bool.false_eq_true, if_false, createErrorResponse]
    refine ⟨by simp, rfl, rfl⟩
  refine ⟨?_, ?_, herr⟩
  · rintro ⟨hdata, herr'⟩
    cases fr with
    | reply status body =>
      rw [finalHandler] at hdata herr'
      by_cases hok : responseOk status = true
      · rw [if_pos hok] at herr'
        simp [createSuccessResponse] at herr'
      · rw [if_neg hok] at hdata
        simp [createErrorResponse] at hdata
    | abortError =>
      rw [finalHandler] at hdata
      cases userAborted : b <;> simp_all [createErrorResponse]
    | otherError msg =>
      rw [finalHandler] at hdata
      simp [createErrorResponse] at hdata
  · intro herr'
    cases fr with
    | reply status body =>
      rw [finalHandler] at herr' ⊢
      by_cases hok : responseOk status = true
      · rw [if_pos hok] at herr'
        simp [createSuccessResponse] at herr'
      · rw [if_neg hok]
        simp [createErrorResponse]
    | abortError =>
      rw [finalHandler]
      cases userAborted : b <;> simp [createErrorResponse]
    | otherError msg =>
      rfl

/-- Witness for C5 at a concrete non-2xx reply: the 404 result has a
populated error while the raw handle and status are attached. -/
theorem claim_C5_witness :
    ¬ (200 ≤ 404 ∧ 404 < 300) ∧
    ((finalHandler false (FetchResult.reply 404 BodyKind.noBody)).error ≠ none ∧
     (finalHandler false (FetchResult.reply 404 BodyKind.noBody)).hasRaw = true ∧
     (finalHandler false (FetchResult.reply 404 BodyKind.noBody)).status = 404) :=
  ⟨by omega,
   (claim_C5_mutual_exclusion false (FetchResult.reply 404 BodyKind.noBody)).2.2
     404 BodyKind.noBody (by omega)⟩

/-- C6: on a non-2xx reply the error carries the payload's code and
message when present, falling back field-wise to the numeric status
and the generic `HTTP <status>` message; in particular
`404 {"code":10001,"message":"not found"}` yields that pair and
`404 {}` yields `404` / `HTTP 404`. -/
theorem claim_C6_error_code_extraction (b : Bool) (status : Nat) (body : BodyKind)
    (h : ¬ (200 ≤ status ∧ status < 300)) :
    ((finalHandler b (FetchResult.reply status body)).error =
      some { code := errCode (decodeBody body) status,
             message := errMessage (decodeBody body) status,
             etype := ErrorType.server }) ∧
    (finalHandler b (FetchResult.reply 404 (BodyKind.jsonBody (JVal.jobj
        [("code", JVal.jnum 10001), ("message", JVal.jstr "not found")])))).error =
      some { code := JVal.jnum 10001, message := JVal.jstr "not found",
             etype := ErrorType.server } ∧
    (finalHandler b (FetchResult.reply 404 (BodyKind.jsonBody (JVal.jobj [])))).error =
      some { code := JVal.jnum 404, message := JVal.jstr "HTTP 404",
             etype := ErrorType.server } := by
  have hok : responseOk status = false := by
    rw [responseOk]
    simp only [Bool.and_eq_false_iff, decide_eq_false_iff_not]
    omega
  refine ⟨?_, ?_, ?_⟩
  · rw [finalHandler, hok]
    simp [createErrorResponse]
  · rfl
  · rfl

/-- Witness for C6: the general field-wise extraction applied at the
404-with-empty-object scenario. -/
theorem claim_C6_witness :
    (finalHandler false (FetchResult.reply 404 BodyKind.noBody)).error =
      some { code := errCode (decodeBody BodyKind.noBody) 404,
             message := errMessage (decodeBody BodyKind.noBody) 404,
             etype := ErrorType.server } :=
  (claim_C6_error_code_extraction false 404 BodyKind.noBody (by omega)).1

/-- C3 counterexample: with `reconnectInterval = 1000` and two
consecutive failures the scheduled delays are 1000 ms and 1000 ms,
not the exponential `min(1000·2^(k-1), 30000)` = 1000 ms, 2000 ms the
claim prescribes — the second delay differs. -/
theorem claim_C3_counterexample :
    (runSub (α := Unit) { reconnectInterval := 1000, maxReconnects := 5 } initSub
        [ConnOutcome.failPre false, ConnOutcome.failPre false]).2 = [1000, 1000] ∧
    [specBackoff 1000 1, specBackoff 1000 2] = [1000, 2000] ∧
    (runSub (α := Unit) { reconnectInterval := 1000, maxReconnects := 5 } initSub
        [ConnOutcome.failPre false, ConnOutcome.failPre false]).2 ≠
      [specBackoff 1000 1, specBackoff 1000 2] := by
  refine ⟨by decide, by decide, by decide⟩

/-- C3 (amended): on the k-th non-user failure with k within the
maximum, the manager increments the counter and fires the
reconnecting callback with (k, maximum), but always waits the
configured constant `reconnectInterval` — there is no exponential
growth and no 30 s cap. -/
theorem claim_C3_constant_interval {α : Type} (cfg : SSEConfig) (n : Nat)
    (h : n ≤ cfg.maxReconnects) :
    runSub (α := α) cfg initSub (List.replicate n (ConnOutcome.failPre false)) =
      (((List.range n).map (fun j =>
          [CB.cbError, CB.cbReconnect (j + 1) cfg.maxReconnects])).flatten,
       List.replicate n cfg.reconnectInterval) := by
  have h0 := runSub_failures (α := α) cfg n 0 none (by omega)
  rw [show (initSub : SubState) = { reconnectCount := 0, lastEventId := none } from rfl,
      h0]
  congr 1
  congr 1
  apply List.map_congr_left
  intro j hj
  simp

/-- Witness for C3 (amended) at two failures under interval 1000. -/
theorem claim_C3_witness :
    (2 ≤ 5) ∧
    runSub (α := Unit) { reconnectInterval := 1000, maxReconnects := 5 } initSub
        (List.replicate 2 (ConnOutcome.failPre false)) =
      (((List.range 2).map (fun j => [CB.cbError, CB.cbReconnect (j + 1) 5])).flatten,
       List.replicate 2 1000) :=
  ⟨by omega,
   claim_C3_constant_interval { reconnectInterval := 1000, maxReconnects := 5 } 2
     (by decide)⟩

/-- C9: the reconnect counter after a scheduled retry is never zero,
it can only have gone down when the attempt actually opened (the reset
to zero happens only on a successful open, so the attempt number after
an open is 1), and once the counter has reached the maximum a failure
fires only `onError` and `onMaxReconnects` — the latter at most once
over the whole run — and no further attempt is ever scheduled. -/
theorem claim_C9_reset_only_on_open {α : Type} (cfg : SSEConfig) :
    (∀ (st : SubState) (oc : ConnOutcome α) (d : Nat) (st' : SubState),
      (stepConn cfg st oc).2 = some (d, st') →
        1 ≤ st'.reconnectCount ∧
        (st'.reconnectCount ≤ st.reconnectCount →
          ∃ evs ek, oc = ConnOutcome.opened evs ek) ∧
        ((∃ evs ek, oc = ConnOutcome.opened evs ek) → st'.reconnectCount = 1)) ∧
    (∀ (st : SubState) (evs : List (SSEEvent α)), 0 < cfg.maxReconnects →
      (stepConn cfg st (ConnOutcome.opened evs (EndKind.errored false))).1 =
        CB.cbOpen :: evs.map eventCb ++
          [CB.cbError, CB.cbReconnect 1 cfg.maxReconnects]) ∧
    (∀ (st : SubState) (rest : List (ConnOutcome α)),
      cfg.maxReconnects ≤ st.reconnectCount →
      runSub cfg st (ConnOutcome.failPre false :: rest) =
        ([CB.cbError, CB.cbMaxReconnects], [])) ∧
    (∀ (st : SubState) (ocs : List (ConnOutcome α)),
      (runSub cfg st ocs).1.countP isMaxCb ≤ 1) := by
  refine ⟨?_, ?_, ?_, ?_⟩
  · intro st oc d st' h
    have s := stepConn_sched cfg st oc d st' h
    exact ⟨s.2.1, s.2.2.1, s.2.2.2⟩
  · intro st evs hpos
    rw [stepConn]
    simp only [reconnectStep, if_pos (show (0 : Nat) < cfg.maxReconnects from hpos)]
  · intro st rest hge
    exact runSub_max_stop cfg st hge rest
  · intro st ocs
    exact runSub_max_once cfg ocs st

/-- Witness for C9 at concrete inputs: a scheduled retry carries
counter 1, a failure right after an open reconnects with attempt 1,
and a failure at the maximum fires error and max-reconnects only. -/
theorem claim_C9_witness :
    (1 ≤ ({ reconnectCount := 1, lastEventId := none } : SubState).reconnectCount) ∧
    ((stepConn (α := Unit) { reconnectInterval := 1000, maxReconnects := 2 } initSub
        (ConnOutcome.opened [] (EndKind.errored false))).1 =
      CB.cbOpen :: List.map eventCb [] ++ [CB.cbError, CB.cbReconnect 1 2]) ∧
    (runSub (α := Unit) { reconnectInterval := 1000, maxReconnects := 2 }
        { reconnectCount := 2, lastEventId := none }
        [ConnOutcome.failPre false] = ([CB.cbError, CB.cbMaxReconnects], [])) :=
  ⟨((claim_C9_reset_only_on_open (α := Unit)
      { reconnectInterval := 1000, maxReconnects := 2 }).1 initSub
      (ConnOutcome.failPre false) 1000 { reconnectCount := 1, lastEventId := none }
      (by decide)).1,
   (claim_C9_reset_only_on_open (α := Unit)
      { reconnectInterval := 1000, maxReconnects := 2 }).2.1 initSub [] (by decide),
   (claim_C9_reset_only_on_open (α := Unit)
      { reconnectInterval := 1000, maxReconnects := 2 }).2.2.1
      { reconnectCount := 2, lastEventId := none } [] (by decide)⟩

/-- Witness for C2 (amended): a 200 reply with a text body is
classified as success. -/
theorem claim_C2_witness :
    (finalHandler false (FetchResult.reply 200 (BodyKind.textBody "ok"))).error = none :=
  ((claim_C2_success_iff_2xx false 200 (BodyKind.textBody "ok") BodyKind.noBody).1).mpr
    (by omega)

/-- Witness for C4: an externally aborted call is classified as kind
abort. -/
theorem claim_C4_witness :
    ∃ e, (finalHandler true FetchResult.abortError).error = some e ∧
      e.etype = ErrorType.abort :=
  (claim_C4_transport_classification true "x").2.2.2

end VafastClient
